import Mathlib

/-!
Verification of the grid reconciliation engine of the mugeunji scheduler
client (src/static/general/script.js, second document in the file: the
deployed general client).  The engine owns a weekly table of 168 time
slots.  Three operations are embedded below, translated line by line from
the source:

* grid construction (function generateReservationGrid, lines 405 to 426):
  a table built row by row, time 0 to 23, and inside each row one cell per
  weekday in the order Monday .. Sunday; cells with hour 0 to 5 carry a
  data-group attribute equal to the day name followed by "-group";
* the slot click handler installed by generateReservationGrid
  (lines 427 to 449), called toggleSlot in the specification;
* function updateGridWithReservations (lines 452 to 481), called
  applySnapshot in the specification;
* the reservation payload built by the submit button handler
  (lines 309 to 319), called buildReservationIntent in the specification.

A DOM cell is modelled as a Slot record: the data-day and data-time-index
attributes, the optional data-group attribute, the three CSS classes
selected / reserved / mine, and the textContent.  The class mine renders
the specification state reserved_by_self, the class reserved renders
reserved_by_other, the class selected renders selected, and the absence of
all three renders free.  The document is the list of cells in document
order, which is the order the table rows were emitted in.
-/

namespace MugeunjiScheduler

/-- The seven weekday identifiers, the keys of dayMap in the source. -/
inductive Day where
  | monday | tuesday | wednesday | thursday | friday | saturday | sunday
deriving DecidableEq, Repr

/-- The string written into the data-day attribute, the key strings of
dayMap in the source. -/
def dayName : Day → String
  | .monday => "Monday"
  | .tuesday => "Tuesday"
  | .wednesday => "Wednesday"
  | .thursday => "Thursday"
  | .friday => "Friday"
  | .saturday => "Saturday"
  | .sunday => "Sunday"

/-- Object.keys(dayMap), in source order. -/
def weekDays : List Day :=
  [.monday, .tuesday, .wednesday, .thursday, .friday, .saturday, .sunday]

/-- One td.time-slot cell: its data attributes, its three state classes
and its text content. -/
structure Slot where
  day : Day
  timeIndex : Nat
  group : Option String
  selected : Bool
  reserved : Bool
  mine : Bool
  textContent : String
deriving DecidableEq, Repr

/-- The data-group attribute: present exactly when the hour is 0 to 5
(source: if (time >= 0 && time <= 5); time >= 0 always holds for a Nat),
with value the day name followed by "-group". -/
def groupAttr (d : Day) (t : Nat) : Option String :=
  if t ≤ 5 then some (dayName d ++ "-group") else none

/-- The grid built by generateReservationGrid: for each time 0..23 one
row, inside it one cell per weekday, all cells free. -/
def generateReservationGrid : List Slot :=
  (List.range 24).flatMap fun t =>
    weekDays.map fun d =>
      { day := d, timeIndex := t, group := groupAttr d t,
        selected := false, reserved := false, mine := false,
        textContent := "" }

/-- The (data-day, data-time-index) pair of a cell, the identity the
source uses in its querySelector lookups and in the uniqueId strings. -/
def slotKey (s : Slot) : Day × Nat := (s.day, s.timeIndex)

/-- querySelector for td[data-day=..][data-time-index=..]: the first cell
in document order with the given attributes. -/
def findSlot (g : List Slot) (d : Day) (t : Nat) : Option Slot :=
  g.find? fun s => s.day == d && s.timeIndex == t

/-- The click handler of a slot (source lines 428 to 448), applied to the
cell with attributes (d, t).  If the cell carries the classes reserved or
mine, nothing happens.  Otherwise, if the cell has a data-group, every
cell of that group that is not reserved or mine gets the class selected
removed when the clicked cell had it and added when it did not; without a
data-group only the clicked cell has its class selected toggled.  In the
grids the program builds the (day, timeIndex) pair identifies the cell
uniquely, so toggling the one clicked DOM element is rendered as the map
over the cells with its attributes. -/
def toggleSlot (g : List Slot) (d : Day) (t : Nat) : List Slot :=
  match findSlot g d t with
  | none => g
  | some slot =>
    if slot.reserved || slot.mine then g
    else
      match slot.group with
      | some grp =>
        g.map fun gs =>
          if gs.group == some grp then
            if gs.reserved || gs.mine then gs
            else if slot.selected then { gs with selected := false }
            else { gs with selected := true }
          else gs
      | none =>
        g.map fun gs =>
          if gs.day == d && gs.timeIndex == t then
            { gs with selected := !gs.selected }
          else gs

/-- One record of the RESERVATION_UPDATE payload, as read by
updateGridWithReservations: res.reservation_day, res.time_index and
res.username. -/
structure ResEntry where
  reservation_day : String
  time_index : Nat
  username : String
deriving DecidableEq, Repr

/-- The (reservation_day, time_index) pair of a snapshot record. -/
def entryKey (e : ResEntry) : String × Nat := (e.reservation_day, e.time_index)

/-- Whether the selector td[data-day=res.reservation_day]
[data-time-index=res.time_index] matches the cell. -/
def matchesEntry (e : ResEntry) (s : Slot) : Bool :=
  dayName s.day == e.reservation_day && s.timeIndex == e.time_index

/-- Mutation of the first element of the list satisfying p, the effect of
a querySelector lookup followed by a mutation of the found element; when
no element matches (the if (slot) null check) the list is unchanged. -/
def updateFirst (p : α → Bool) (f : α → α) : List α → List α
  | [] => []
  | a :: rest => if p a then f a :: rest else a :: updateFirst p f rest

/-- Effect of one snapshot record on its cell: slot.textContent :=
res.username, then classList.add of mine when res.username equals the
current user and of reserved otherwise. -/
def markReserved (currentUser : String) (e : ResEntry) (s : Slot) : Slot :=
  if e.username == currentUser then
    { s with textContent := e.username, mine := true }
  else
    { s with textContent := e.username, reserved := true }

/-- The body of the reservations.forEach loop: look the cell up and, when
found, mark it. -/
def applyEntry (currentUser : String) (g : List Slot) (e : ResEntry) : List Slot :=
  updateFirst (matchesEntry e) (markReserved currentUser e) g

/-- The reset loop: slot.textContent := emptied, classes reserved, mine
and selected removed. -/
def clearSlot (s : Slot) : Slot :=
  { s with textContent := "", reserved := false, mine := false, selected := false }

/-- The restore step on a found cell: classList.add of selected when the
cell carries neither reserved nor mine. -/
def restoreSel (s : Slot) : Slot :=
  if !s.reserved && !s.mine then { s with selected := true } else s

/-- The body of the selectedSlotsBeforeUpdate.forEach loop: look the cell
of the captured uniqueId up and restore its selection if it is free.  The
uniqueId string day-timeIndex splits back into the day name and the time
index because no day name contains a hyphen, so it is rendered as the
(Day, Nat) pair. -/
def restoreOne (g : List Slot) (k : Day × Nat) : List Slot :=
  updateFirst (fun s => s.day == k.1 && s.timeIndex == k.2) restoreSel g

/-- The capture loop over document.querySelectorAll of .time-slot.selected:
the uniqueId pairs of the cells carrying the class selected, in document
order.  The source collects them in a Set; in the grids the program
builds the pairs are distinct, so the list renders it. -/
def captureIds (g : List Slot) : List (Day × Nat) :=
  (g.filter fun s => s.selected).map fun s => (s.day, s.timeIndex)

/-- Function updateGridWithReservations (source lines 452 to 481):
capture the selected cells, reset every cell, mark the cell of each
snapshot record, then restore the captured selections on cells left
free. -/
def updateGridWithReservations (currentUser : String) (g : List Slot)
    (reservations : List ResEntry) : List Slot :=
  let selectedBefore := captureIds g
  let cleared := g.map clearSlot
  let marked := reservations.foldl (applyEntry currentUser) cleared
  selectedBefore.foldl restoreOne marked

/-- The specification name of updateGridWithReservations. -/
def applySnapshot (currentUser : String) (g : List Slot)
    (snapshot : List ResEntry) : List Slot :=
  updateGridWithReservations currentUser g snapshot

/-- The reservation payload of the submit button handler (source lines
309 to 319): the (day, time_index) pairs of the cells carrying the class
selected, in the document order querySelectorAll returns. -/
def buildReservationIntent (g : List Slot) : List (Day × Nat) :=
  (g.filter fun s => s.selected).map fun s => (s.day, s.timeIndex)

/-- A user interaction the engine reacts to: a click on a cell or a
snapshot push. -/
inductive Op where
  | click (d : Day) (t : Nat)
  | push (currentUser : String) (snapshot : List ResEntry)

/-- Dispatch of one interaction. -/
def applyOp (g : List Slot) : Op → List Slot
  | .click d t => toggleSlot g d t
  | .push cu snap => updateGridWithReservations cu g snap

/-- A whole session: the interactions applied in order. -/
def runOps (g : List Slot) (ops : List Op) : List Slot :=
  ops.foldl applyOp g

/-- The part of a cell fixed at construction: its data-day,
data-time-index and data-group attributes. -/
def skel (s : Slot) : Day × Nat × Option String := (s.day, s.timeIndex, s.group)

/-- Position of a day in the canonical week order. -/
def dayIdx : Day → Nat
  | .monday => 0 | .tuesday => 1 | .wednesday => 2 | .thursday => 3
  | .friday => 4 | .saturday => 5 | .sunday => 6

/-- Strict order on slot identifiers in document order: earlier time
first, and within one time earlier day first. -/
def keyLT (a b : Day × Nat) : Bool :=
  a.2 < b.2 || (a.2 == b.2 && dayIdx a.1 < dayIdx b.1)

/-- Per-slot effect of one snapshot record during the marking pass. -/
def entryStep (currentUser : String) (e : ResEntry) (s : Slot) : Slot :=
  if matchesEntry e s then markReserved currentUser e s else s

/-- Per-slot effect of the whole marking pass. -/
def entryFold (currentUser : String) (snap : List ResEntry) (s : Slot) : Slot :=
  snap.foldl (fun s e => entryStep currentUser e s) s

/-- Per-slot effect of one captured identifier during the restore pass. -/
def restoreStep (k : Day × Nat) (s : Slot) : Slot :=
  if s.day == k.1 && s.timeIndex == k.2 then restoreSel s else s

/-- Per-slot effect of one whole updateGridWithReservations call: clear,
mark from the snapshot, then restore the selection if the identifier was
captured. -/
def snapStep (currentUser : String) (snap : List ResEntry)
    (cap : List (Day × Nat)) (s : Slot) : Slot :=
  let s2 := entryFold currentUser snap (clearSlot s)
  if (s.day, s.timeIndex) ∈ cap then restoreSel s2 else s2

/-! Preservation of the construction-time attributes by every per-slot
mutation. -/

theorem markReserved_skel (cu : String) (e : ResEntry) (s : Slot) :
    skel (markReserved cu e s) = skel s := by
  unfold markReserved; split <;> rfl

theorem clearSlot_skel (s : Slot) : skel (clearSlot s) = skel s := rfl

theorem restoreSel_skel (s : Slot) : skel (restoreSel s) = skel s := by
  unfold restoreSel; split <;> rfl

theorem entryStep_skel (cu : String) (e : ResEntry) (s : Slot) :
    skel (entryStep cu e s) = skel s := by
  unfold entryStep; split
  · exact markReserved_skel cu e s
  · rfl

theorem entryFold_skel (cu : String) (snap : List ResEntry) (s : Slot) :
    skel (entryFold cu snap s) = skel s := by
  induction snap generalizing s with
  | nil => rfl
  | cons e es ih =>
    show skel (entryFold cu es (entryStep cu e s)) = skel s
    rw [ih (entryStep cu e s), entryStep_skel]

theorem slotKey_congr {a b : Slot} (h : skel a = skel b) : slotKey a = slotKey b := by
  unfold skel at h
  rw [Prod.mk.injEq, Prod.mk.injEq] at h
  unfold slotKey
  rw [h.1, h.2.1]

theorem markReserved_key (cu : String) (e : ResEntry) (s : Slot) :
    slotKey (markReserved cu e s) = slotKey s :=
  slotKey_congr (markReserved_skel cu e s)

theorem clearSlot_key (s : Slot) : slotKey (clearSlot s) = slotKey s := rfl

theorem restoreSel_key (s : Slot) : slotKey (restoreSel s) = slotKey s :=
  slotKey_congr (restoreSel_skel s)

theorem entryStep_key (cu : String) (e : ResEntry) (s : Slot) :
    slotKey (entryStep cu e s) = slotKey s :=
  slotKey_congr (entryStep_skel cu e s)

theorem entryFold_key (cu : String) (snap : List ResEntry) (s : Slot) :
    slotKey (entryFold cu snap s) = slotKey s :=
  slotKey_congr (entryFold_skel cu snap s)

theorem markReserved_selected (cu : String) (e : ResEntry) (s : Slot) :
    (markReserved cu e s).selected = s.selected := by
  unfold markReserved; split <;> rfl

theorem entryStep_selected (cu : String) (e : ResEntry) (s : Slot) :
    (entryStep cu e s).selected = s.selected := by
  unfold entryStep; split
  · exact markReserved_selected cu e s
  · rfl

theorem entryFold_selected (cu : String) (snap : List ResEntry) (s : Slot) :
    (entryFold cu snap s).selected = s.selected := by
  induction snap generalizing s with
  | nil => rfl
  | cons e es ih =>
    show (entryFold cu es (entryStep cu e s)).selected = s.selected
    rw [ih (entryStep cu e s), entryStep_selected]

theorem restoreSel_reserved (s : Slot) : (restoreSel s).reserved = s.reserved := by
  unfold restoreSel; split <;> rfl

theorem restoreSel_mine (s : Slot) : (restoreSel s).mine = s.mine := by
  unfold restoreSel; split <;> rfl

theorem restoreSel_idem (s : Slot) : restoreSel (restoreSel s) = restoreSel s := by
  unfold restoreSel
  by_cases h : (!s.reserved && !s.mine) = true <;> simp [h]

/-! The querySelector mutation acts on the unique matching element. -/

theorem updateFirst_all_false {α : Type _} {p : α → Bool} {f : α → α}
    {l : List α} (h : ∀ a ∈ l, p a = false) : updateFirst p f l = l := by
  induction l with
  | nil => rfl
  | cons a l ih =>
    unfold updateFirst
    rw [h a (List.mem_cons_self a l)]
    simp only [Bool.false_eq_true, if_false]
    rw [ih fun b hb => h b (List.mem_cons_of_mem a hb)]

theorem map_ite_of_all_false {α : Type _} {p : α → Bool} {f : α → α}
    {l : List α} (h : ∀ a ∈ l, p a = false) :
    (l.map fun a => if p a then f a else a) = l := by
  have h2 : ∀ a ∈ l, (if p a then f a else a) = id a := by
    intro a ha; simp [h a ha]
  rw [List.map_congr_left h2, List.map_id]

theorem updateFirst_eq_map {α κ : Type _} {p : α → Bool} {f : α → α}
    {K : α → κ} {l : List α} (hNd : (l.map K).Nodup)
    (hp : ∀ a b, p a = true → p b = true → K a = K b) :
    updateFirst p f l = l.map fun a => if p a then f a else a := by
  induction l with
  | nil => rfl
  | cons a l ih =>
    rw [List.map_cons, List.nodup_cons] at hNd
    unfold updateFirst
    cases hpa : p a with
    | true =>
      simp only [if_true]
      have hrest : ∀ b ∈ l, p b = false := by
        intro b hb
        cases hpb : p b with
        | false => rfl
        | true => exact absurd (List.mem_map.mpr ⟨b, hb, hp b a hpb hpa⟩) hNd.1
      rw [List.map_cons, hpa]
      simp only [if_true]
      rw [map_ite_of_all_false hrest]
    | false =>
      simp only [Bool.false_eq_true, if_false]
      rw [List.map_cons, hpa]
      simp only [Bool.false_eq_true, if_false]
      rw [ih hNd.2]

theorem map_K_updateFirst {α κ : Type _} {p : α → Bool} {f : α → α}
    (K : α → κ) (hf : ∀ a, K (f a) = K a) (l : List α) :
    (updateFirst p f l).map K = l.map K := by
  induction l with
  | nil => rfl
  | cons a l ih =>
    unfold updateFirst
    split
    · rw [List.map_cons, List.map_cons, hf]
    · rw [List.map_cons, List.map_cons, ih]

/-! Key discipline: the data-day strings are pairwise distinct, so a
selector matches at most one cell of a key-unique grid. -/

theorem dayName_inj {a b : Day} (h : dayName a = dayName b) : a = b := by
  cases a <;> cases b <;> first | rfl | exact absurd h (by decide)

theorem matchesEntry_key {e : ResEntry} {a b : Slot}
    (ha : matchesEntry e a = true) (hb : matchesEntry e b = true) :
    slotKey a = slotKey b := by
  unfold matchesEntry at ha hb
  rw [Bool.and_eq_true, beq_iff_eq, beq_iff_eq] at ha hb
  have hd : a.day = b.day := dayName_inj (by rw [ha.1, hb.1])
  unfold slotKey
  rw [hd, ha.2, hb.2]

theorem matchesEntry_congr (e : ResEntry) {a b : Slot}
    (h : slotKey a = slotKey b) : matchesEntry e a = matchesEntry e b := by
  unfold slotKey at h
  rw [Prod.mk.injEq] at h
  unfold matchesEntry
  rw [h.1, h.2]

theorem restorePred_eq {s : Slot} {k : Day × Nat} :
    (s.day == k.1 && s.timeIndex == k.2) = true ↔ slotKey s = k := by
  unfold slotKey
  rw [Bool.and_eq_true, beq_iff_eq, beq_iff_eq, Prod.ext_iff]

/-! The marking pass and the restore pass act pointwise on a key-unique
grid. -/

theorem foldl_applyEntry_eq_map (cu : String) (snap : List ResEntry)
    (g : List Slot) (hNd : (g.map slotKey).Nodup) :
    snap.foldl (applyEntry cu) g =
      g.map fun s => entryFold cu snap s := by
  induction snap generalizing g with
  | nil => simp [entryFold]
  | cons e es ih =>
    have h1 : applyEntry cu g e = g.map (entryStep cu e) :=
      updateFirst_eq_map hNd fun a b => matchesEntry_key
    have hK : (g.map (entryStep cu e)).map slotKey = g.map slotKey := by
      rw [List.map_map]
      exact List.map_congr_left fun s _ => entryStep_key cu e s
    have hNd2 : ((g.map (entryStep cu e)).map slotKey).Nodup := by
      rw [hK]; exact hNd
    rw [List.foldl_cons, h1, ih _ hNd2, List.map_map]
    rfl

theorem foldl_restoreOne_eq_map (ids : List (Day × Nat)) (g : List Slot)
    (hNd : (g.map slotKey).Nodup) :
    ids.foldl restoreOne g =
      g.map fun s => ids.foldl (fun s k => restoreStep k s) s := by
  induction ids generalizing g with
  | nil => simp
  | cons k ids ih =>
    have h1 : restoreOne g k = g.map (restoreStep k) :=
      updateFirst_eq_map hNd fun a b hpa hpb => by
        rw [restorePred_eq.mp hpa, restorePred_eq.mp hpb]
    have hK : (g.map (restoreStep k)).map slotKey = g.map slotKey := by
      rw [List.map_map]
      refine List.map_congr_left fun s _ => ?_
      show slotKey (restoreStep k s) = slotKey s
      unfold restoreStep
      split
      · exact restoreSel_key s
      · rfl
    have hNd2 : ((g.map (restoreStep k)).map slotKey).Nodup := by
      rw [hK]; exact hNd
    rw [List.foldl_cons, h1, ih _ hNd2, List.map_map]
    rfl

theorem foldl_restoreStep (ids : List (Day × Nat)) (s : Slot) :
    ids.foldl (fun s k => restoreStep k s) s =
      if (s.day, s.timeIndex) ∈ ids then restoreSel s else s := by
  induction ids generalizing s with
  | nil => simp
  | cons k ids ih =>
    rw [List.foldl_cons]
    by_cases hk : (s.day, s.timeIndex) = k
    · have h1 : restoreStep k s = restoreSel s := by
        unfold restoreStep
        rw [if_pos (restorePred_eq.mpr hk)]
      have hkey : ((restoreSel s).day, (restoreSel s).timeIndex) = (s.day, s.timeIndex) :=
        restoreSel_key s
      rw [h1, ih, hkey]
      have hmemc : (s.day, s.timeIndex) ∈ k :: ids := by
        rw [hk]; exact List.mem_cons_self k ids
      by_cases hmem : (s.day, s.timeIndex) ∈ ids
      · rw [if_pos hmem, if_pos hmemc, restoreSel_idem]
      · rw [if_neg hmem, if_pos hmemc]
    · have h1 : restoreStep k s = s := by
        unfold restoreStep
        rw [if_neg fun hc => hk (restorePred_eq.mp hc)]
      have h2 : ((s.day, s.timeIndex) ∈ k :: ids) ↔ ((s.day, s.timeIndex) ∈ ids) := by
        simp [List.mem_cons, hk]
      rw [h1, ih, if_congr h2 rfl rfl]

/-- Pointwise characterization of updateGridWithReservations on a grid
with pairwise distinct slot identifiers: every cell evolves
independently, by a clear, the marking steps of the matching snapshot
records in order, and a conditional restore. -/
theorem updateGrid_pointwise (cu : String) (g : List Slot)
    (snap : List ResEntry) (hNd : (g.map slotKey).Nodup) :
    updateGridWithReservations cu g snap =
      g.map (snapStep cu snap (captureIds g)) := by
  show (captureIds g).foldl restoreOne
      (snap.foldl (applyEntry cu) (g.map clearSlot)) =
    g.map (snapStep cu snap (captureIds g))
  have hclear : (g.map clearSlot).map slotKey = g.map slotKey := by
    rw [List.map_map]
    exact List.map_congr_left fun s _ => clearSlot_key s
  have hNd1 : ((g.map clearSlot).map slotKey).Nodup := by rw [hclear]; exact hNd
  rw [foldl_applyEntry_eq_map cu snap _ hNd1, List.map_map]
  simp only [Function.comp_def]
  have hkeys2 : (g.map fun s => entryFold cu snap (clearSlot s)).map slotKey
      = g.map slotKey := by
    rw [List.map_map]
    refine List.map_congr_left fun s _ => ?_
    show slotKey (entryFold cu snap (clearSlot s)) = slotKey s
    rw [entryFold_key, clearSlot_key]
  have hNd2 : ((g.map fun s => entryFold cu snap (clearSlot s)).map slotKey).Nodup := by
    rw [hkeys2]; exact hNd
  rw [foldl_restoreOne_eq_map (captureIds g) _ hNd2, List.map_map]
  refine List.map_congr_left fun s _ => ?_
  show (captureIds g).foldl (fun s k => restoreStep k s)
      (entryFold cu snap (clearSlot s)) = snapStep cu snap (captureIds g) s
  rw [foldl_restoreStep]
  have hkey : ((entryFold cu snap (clearSlot s)).day,
      (entryFold cu snap (clearSlot s)).timeIndex) = (s.day, s.timeIndex) := by
    show slotKey (entryFold cu snap (clearSlot s)) = slotKey s
    rw [entryFold_key, clearSlot_key]
  rw [hkey]
  rfl

/-! Facts about the per-slot pipeline and the capture list. -/

theorem clearSlot_selected (s : Slot) : (clearSlot s).selected = false := rfl

theorem snapStep_selected_false (cu : String) (snap : List ResEntry) (s : Slot) :
    (entryFold cu snap (clearSlot s)).selected = false := by
  rw [entryFold_selected, clearSlot_selected]

theorem snapStep_eval (cu : String) (snap : List ResEntry)
    (cap : List (Day × Nat)) (s : Slot) :
    snapStep cu snap cap s =
      if (s.day, s.timeIndex) ∈ cap then
        restoreSel (entryFold cu snap (clearSlot s))
      else entryFold cu snap (clearSlot s) := rfl

theorem snapStep_skel (cu : String) (snap : List ResEntry)
    (cap : List (Day × Nat)) (s : Slot) :
    skel (snapStep cu snap cap s) = skel s := by
  unfold snapStep
  split
  · rw [restoreSel_skel, entryFold_skel, clearSlot_skel]
  · rw [entryFold_skel, clearSlot_skel]

theorem snapStep_key (cu : String) (snap : List ResEntry)
    (cap : List (Day × Nat)) (s : Slot) :
    slotKey (snapStep cu snap cap s) = slotKey s :=
  slotKey_congr (snapStep_skel cu snap cap s)

theorem mem_captureIds {g : List Slot} {k : Day × Nat} :
    k ∈ captureIds g ↔ ∃ s ∈ g, s.selected = true ∧ slotKey s = k := by
  unfold captureIds slotKey
  simp only [List.mem_map, List.mem_filter]
  constructor
  · rintro ⟨s, ⟨hmem, hsel⟩, hk⟩
    exact ⟨s, hmem, hsel, hk⟩
  · rintro ⟨s, hmem, hsel, hk⟩
    exact ⟨s, ⟨hmem, hsel⟩, hk⟩

theorem mem_captureIds_of_nodup {g : List Slot} (hNd : (g.map slotKey).Nodup)
    {s : Slot} (hs : s ∈ g) : slotKey s ∈ captureIds g ↔ s.selected = true := by
  rw [mem_captureIds]
  constructor
  · rintro ⟨s', hmem, hsel, hk⟩
    rwa [List.inj_on_of_nodup_map hNd hmem hs hk] at hsel
  · intro hsel
    exact ⟨s, hs, hsel, rfl⟩

/-! Generic preservation of a property through the querySelector
mutations. -/

theorem updateFirst_forall {α : Type _} {P : α → Prop} {p : α → Bool}
    {f : α → α} (hf : ∀ a, P a → P (f a)) :
    ∀ {l : List α}, (∀ a ∈ l, P a) → ∀ a ∈ updateFirst p f l, P a := by
  intro l
  induction l with
  | nil => intro _ a ha; cases ha
  | cons b l ih =>
    intro h a ha
    unfold updateFirst at ha
    split at ha
    · rcases List.mem_cons.mp ha with h1 | h1
      · rw [h1]; exact hf b (h b (List.mem_cons_self b l))
      · exact h a (List.mem_cons_of_mem b h1)
    · rcases List.mem_cons.mp ha with h1 | h1
      · rw [h1]; exact h b (List.mem_cons_self b l)
      · exact ih (fun c hc => h c (List.mem_cons_of_mem b hc)) a h1

theorem selected_false_after_marking (cu : String) (snap : List ResEntry) :
    ∀ {g : List Slot}, (∀ s ∈ g, s.selected = false) →
      ∀ s ∈ snap.foldl (applyEntry cu) g, s.selected = false := by
  induction snap with
  | nil => intro g h; exact h
  | cons e es ih =>
    intro g h
    rw [List.foldl_cons]
    refine ih (updateFirst_forall ?_ h)
    intro a ha
    rw [markReserved_selected]
    exact ha

theorem selection_clean_after_restore (ids : List (Day × Nat)) :
    ∀ {g : List Slot},
      (∀ s ∈ g, s.selected = true → s.reserved = false ∧ s.mine = false) →
      ∀ s ∈ ids.foldl restoreOne g,
        s.selected = true → s.reserved = false ∧ s.mine = false := by
  induction ids with
  | nil => intro g h; exact h
  | cons k ks ih =>
    intro g h
    rw [List.foldl_cons]
    refine ih (updateFirst_forall ?_ h)
    intro a ha
    unfold restoreSel
    split
    · rename_i hclean
      rw [Bool.and_eq_true, Bool.not_eq_true', Bool.not_eq_true'] at hclean
      intro _
      exact hclean
    · exact ha

/-- C2: after updateGridWithReservations (the applySnapshot of the
specification) no cell carries the class selected together with the
class reserved or the class mine, whatever grid state the call found and
whatever snapshot it was handed; since the grid state is universally
quantified, this holds regardless of the order or timing of prior
toggleSlot and applySnapshot calls. -/
theorem applySnapshot_no_selected_reserved (cu : String) (g : List Slot)
    (snap : List ResEntry) (s : Slot) (hs : s ∈ applySnapshot cu g snap)
    (hsel : s.selected = true) : s.reserved = false ∧ s.mine = false := by
  have hs' : s ∈ (captureIds g).foldl restoreOne
      (snap.foldl (applyEntry cu) (g.map clearSlot)) := hs
  have hbase : ∀ x ∈ g.map clearSlot, x.selected = false := by
    intro x hx
    rcases List.mem_map.mp hx with ⟨y, _, hy⟩
    rw [← hy]
    exact clearSlot_selected y
  have hmid := selected_false_after_marking cu snap hbase
  refine selection_clean_after_restore (captureIds g) ?_ s hs' hsel
  intro x hx hxsel
  rw [hmid x hx] at hxsel
  cases hxsel

/-- Witness for C2 at a concrete input: select the free slot Monday 10,
push an empty snapshot; the restored slot is selected and clean. -/
theorem applySnapshot_no_selected_reserved_witness :
    (⟨.monday, 10, none, true, false, false, ""⟩ : Slot) ∈
        applySnapshot "alice" (toggleSlot generateReservationGrid .monday 10) [] ∧
      (⟨.monday, 10, none, true, false, false, ""⟩ : Slot).reserved = false ∧
      (⟨.monday, 10, none, true, false, false, ""⟩ : Slot).mine = false :=
  ⟨by decide,
    applySnapshot_no_selected_reserved "alice"
      (toggleSlot generateReservationGrid .monday 10) []
      ⟨.monday, 10, none, true, false, false, ""⟩ (by decide) rfl⟩

/-- C5: on the fresh grid one click on Monday hour 0 selects exactly the
six slots Monday 0 .. Monday 5, and a following click on Monday hour 3
deselects all six, leaving nothing selected. -/
theorem toggleSlot_group_roundtrip :
    buildReservationIntent (toggleSlot generateReservationGrid .monday 0) =
      [(.monday, 0), (.monday, 1), (.monday, 2), (.monday, 3), (.monday, 4),
        (.monday, 5)] ∧
    buildReservationIntent
        (toggleSlot (toggleSlot generateReservationGrid .monday 0) .monday 3) = [] := by
  constructor <;> decide

/-- C7: a click on a cell carrying the class reserved or the class mine
returns before touching anything, so the whole grid, and with it the set
of selected slots, is unchanged. -/
theorem toggleSlot_reserved_noop (g : List Slot) (d : Day) (t : Nat) (s : Slot)
    (hs : findSlot g d t = some s) (h : s.reserved = true ∨ s.mine = true) :
    toggleSlot g d t = g := by
  have hb : (s.reserved || s.mine) = true := by
    rcases h with h | h <;> simp [h]
  unfold toggleSlot
  rw [hs]
  simp only [hb, if_true]

/-- Witness for C7 at a concrete input: the snapshot reserves Monday 9
for another user; clicking that cell changes nothing. -/
theorem toggleSlot_reserved_noop_witness :
    toggleSlot (applySnapshot "alice" generateReservationGrid
        [⟨"Monday", 9, "bob"⟩]) .monday 9 =
      applySnapshot "alice" generateReservationGrid [⟨"Monday", 9, "bob"⟩] :=
  toggleSlot_reserved_noop _ .monday 9
    ⟨.monday, 9, none, false, true, false, "bob"⟩ (by decide) (Or.inl rfl)

/-! Idempotence of a snapshot application. -/

theorem clearSlot_congr {a b : Slot} (h : skel a = skel b) :
    clearSlot a = clearSlot b := by
  unfold skel at h
  rw [Prod.mk.injEq, Prod.mk.injEq] at h
  obtain ⟨h1, h2, h3⟩ := h
  unfold clearSlot
  cases a; cases b
  simp_all

/-- C6: updateGridWithReservations is idempotent on any grid whose slot
identifiers are pairwise distinct (every grid the program builds is):
applying the same snapshot twice in a row yields the same list of cells,
hence the same slot states, occupant labels and selected set, as
applying it once. -/
theorem applySnapshot_idempotent (cu : String) (g : List Slot)
    (snap : List ResEntry) (hNd : (g.map slotKey).Nodup) :
    applySnapshot cu (applySnapshot cu g snap) snap =
      applySnapshot cu g snap := by
  have h1 : applySnapshot cu g snap =
      g.map (snapStep cu snap (captureIds g)) :=
    updateGrid_pointwise cu g snap hNd
  have hNd2 : ((g.map (snapStep cu snap (captureIds g))).map slotKey).Nodup := by
    rw [List.map_map,
      show slotKey ∘ snapStep cu snap (captureIds g) = slotKey from
        funext fun s => snapStep_key cu snap (captureIds g) s]
    exact hNd
  rw [h1]
  show updateGridWithReservations cu (g.map (snapStep cu snap (captureIds g))) snap = _
  rw [updateGrid_pointwise cu _ snap hNd2, List.map_map]
  refine List.map_congr_left fun s hs => ?_
  show snapStep cu snap
      (captureIds (g.map (snapStep cu snap (captureIds g))))
      (snapStep cu snap (captureIds g) s) =
    snapStep cu snap (captureIds g) s
  have hmem : snapStep cu snap (captureIds g) s ∈
      g.map (snapStep cu snap (captureIds g)) := List.mem_map_of_mem _ hs
  have cond2 : (((snapStep cu snap (captureIds g) s).day,
        (snapStep cu snap (captureIds g) s).timeIndex) ∈
        captureIds (g.map (snapStep cu snap (captureIds g)))) ↔
      (snapStep cu snap (captureIds g) s).selected = true :=
    mem_captureIds_of_nodup hNd2 hmem
  have hclear : clearSlot (snapStep cu snap (captureIds g) s) = clearSlot s :=
    clearSlot_congr (snapStep_skel cu snap (captureIds g) s)
  have hs2sel : (entryFold cu snap (clearSlot s)).selected = false :=
    snapStep_selected_false cu snap s
  rw [snapStep_eval cu snap _ (snapStep cu snap (captureIds g) s), hclear]
  by_cases hc : (s.day, s.timeIndex) ∈ captureIds g
  · have hFs : snapStep cu snap (captureIds g) s =
        restoreSel (entryFold cu snap (clearSlot s)) := by
      rw [snapStep_eval, if_pos hc]
    by_cases hcl : (!(entryFold cu snap (clearSlot s)).reserved &&
        !(entryFold cu snap (clearSlot s)).mine) = true
    · have hsel : (snapStep cu snap (captureIds g) s).selected = true := by
        rw [hFs]
        unfold restoreSel
        rw [if_pos hcl]
      rw [if_pos (cond2.mpr hsel)]
      exact hFs.symm
    · have hnores : restoreSel (entryFold cu snap (clearSlot s)) =
          entryFold cu snap (clearSlot s) := by
        unfold restoreSel
        rw [if_neg hcl]
      have hsel : (snapStep cu snap (captureIds g) s).selected = false := by
        rw [hFs, hnores]
        exact hs2sel
      rw [if_neg (fun hmem2 => by rw [cond2.mp hmem2] at hsel; cases hsel)]
      exact (hFs.trans hnores).symm
  · have hFs : snapStep cu snap (captureIds g) s =
        entryFold cu snap (clearSlot s) := by
      rw [snapStep_eval, if_neg hc]
    have hsel : (snapStep cu snap (captureIds g) s).selected = false := by
      rw [hFs]; exact hs2sel
    rw [if_neg (fun hmem2 => by rw [cond2.mp hmem2] at hsel; cases hsel)]
    exact hFs.symm

set_option maxRecDepth 10000 in
/-- Witness for C6 at a concrete input: one selected slot and a one-entry
snapshot. -/
theorem applySnapshot_idempotent_witness :
    applySnapshot "alice"
        (applySnapshot "alice" (toggleSlot generateReservationGrid .monday 10)
          [⟨"Monday", 9, "bob"⟩]) [⟨"Monday", 9, "bob"⟩] =
      applySnapshot "alice" (toggleSlot generateReservationGrid .monday 10)
        [⟨"Monday", 9, "bob"⟩] :=
  applySnapshot_idempotent "alice" (toggleSlot generateReservationGrid .monday 10)
    [⟨"Monday", 9, "bob"⟩] (by decide)

/-! Effect of the marking pass on the one cell a snapshot record
matches. -/

theorem markReserved_idem (cu : String) (e : ResEntry) (s : Slot) :
    markReserved cu e (markReserved cu e s) = markReserved cu e s := by
  unfold markReserved
  by_cases h : (e.username == cu) = true <;> simp [h]

theorem entryFold_nomatch (cu : String) :
    ∀ {es : List ResEntry} {s : Slot},
      (∀ e' ∈ es, matchesEntry e' s = false) → entryFold cu es s = s := by
  intro es
  induction es with
  | nil => intro s _; rfl
  | cons e₀ es ih =>
    intro s h
    show entryFold cu es (entryStep cu e₀ s) = s
    have h0 : entryStep cu e₀ s = s := by
      unfold entryStep
      rw [h e₀ (List.mem_cons_self e₀ es)]
      simp
    rw [h0]
    exact ih fun e' he' => h e' (List.mem_cons_of_mem e₀ he')

theorem entryFold_unique (cu : String) {e : ResEntry} :
    ∀ {es : List ResEntry} {s : Slot}, matchesEntry e s = true → e ∈ es →
      (∀ e' ∈ es, matchesEntry e' s = true → e' = e) →
      entryFold cu es s = markReserved cu e s := by
  intro es
  induction es with
  | nil => intro s _ he _; cases he
  | cons e₀ es ih =>
    intro s hm he huniq
    by_cases h0 : e₀ = e
    · subst h0
      have hstep : entryStep cu e₀ s = markReserved cu e₀ s := by
        unfold entryStep
        rw [hm]
        simp
      show entryFold cu es (entryStep cu e₀ s) = markReserved cu e₀ s
      rw [hstep]
      have hkey : slotKey (markReserved cu e₀ s) = slotKey s := markReserved_key cu e₀ s
      by_cases hin : e₀ ∈ es
      · have hm' : matchesEntry e₀ (markReserved cu e₀ s) = true := by
          rw [matchesEntry_congr e₀ hkey]
          exact hm
        have huniq' : ∀ e' ∈ es, matchesEntry e' (markReserved cu e₀ s) = true → e' = e₀ := by
          intro e' he' hm2
          rw [matchesEntry_congr e' hkey] at hm2
          exact huniq e' (List.mem_cons_of_mem e₀ he') hm2
        rw [ih hm' hin huniq']
        exact markReserved_idem cu e₀ s
      · refine entryFold_nomatch cu fun e' he' => ?_
        rw [matchesEntry_congr e' hkey]
        cases hm2 : matchesEntry e' s with
        | false => rfl
        | true => exact absurd (huniq e' (List.mem_cons_of_mem e₀ he') hm2 ▸ he') hin
    · have hm0 : matchesEntry e₀ s = false := by
        cases hm2 : matchesEntry e₀ s with
        | false => rfl
        | true => exact absurd (huniq e₀ (List.mem_cons_self e₀ es) hm2) h0
      have hstep : entryStep cu e₀ s = s := by
        unfold entryStep
        rw [hm0]
        simp
      show entryFold cu es (entryStep cu e₀ s) = markReserved cu e s
      rw [hstep]
      have he' : e ∈ es := by
        rcases List.mem_cons.mp he with h | h
        · exact absurd h.symm h0
        · exact h
      exact ih hm he' fun e' he2 hm2 => huniq e' (List.mem_cons_of_mem e₀ he2) hm2

theorem findSlot_map_snapStep (cu : String) (snap : List ResEntry)
    (cap : List (Day × Nat)) (g : List Slot) (d : Day) (t : Nat) :
    findSlot (g.map (snapStep cu snap cap)) d t =
      (findSlot g d t).map (snapStep cu snap cap) := by
  unfold findSlot
  rw [List.find?_map]
  congr 1
  have hp : ((fun s : Slot => s.day == d && s.timeIndex == t) ∘ snapStep cu snap cap)
      = fun s : Slot => s.day == d && s.timeIndex == t := by
    funext s
    show ((snapStep cu snap cap s).day == d && (snapStep cu snap cap s).timeIndex == t)
        = (s.day == d && s.timeIndex == t)
    have hk := snapStep_key cu snap cap s
    unfold slotKey at hk
    rw [Prod.mk.injEq] at hk
    rw [hk.1, hk.2]
  rw [hp]

theorem restoreSel_markReserved_clear (cu : String) (e : ResEntry) (s : Slot) :
    restoreSel (markReserved cu e (clearSlot s)) = markReserved cu e (clearSlot s) := by
  unfold restoreSel markReserved clearSlot
  by_cases h : (e.username == cu) = true <;> simp [h]

/-- C3: updateGridWithReservations locates the cell of each snapshot
record by its (day, time_index) attributes and marks it: occupant label
res.username, class mine exactly when res.username equals the current
user, class reserved otherwise, never selected; stated for snapshots
whose records address pairwise distinct cells, as the server sends one
record per reserved slot. -/
theorem applySnapshot_entry_sets_reservation (cu : String) (g : List Slot)
    (snap : List ResEntry) (e : ResEntry) (d : Day) (t : Nat) (s : Slot)
    (hNd : (g.map slotKey).Nodup) (hNdSnap : (snap.map entryKey).Nodup)
    (he : e ∈ snap) (hd : e.reservation_day = dayName d) (ht : e.time_index = t)
    (hs : findSlot g d t = some s) :
    findSlot (applySnapshot cu g snap) d t =
        some (markReserved cu e (clearSlot s)) ∧
      (markReserved cu e (clearSlot s)).textContent = e.username ∧
      (markReserved cu e (clearSlot s)).mine = (e.username == cu) ∧
      (markReserved cu e (clearSlot s)).reserved = (!(e.username == cu)) ∧
      (markReserved cu e (clearSlot s)).selected = false := by
  have hkey : slotKey s = (d, t) := by
    have := List.find?_some hs
    rw [Bool.and_eq_true, beq_iff_eq, beq_iff_eq] at this
    unfold slotKey
    rw [this.1, this.2]
  have hms : matchesEntry e s = true := by
    unfold matchesEntry
    unfold slotKey at hkey
    rw [Prod.mk.injEq] at hkey
    rw [hkey.1, hkey.2, hd, ht]
    simp
  have hfold : entryFold cu snap (clearSlot s) = markReserved cu e (clearSlot s) := by
    have hmc : matchesEntry e (clearSlot s) = true := by
      rw [matchesEntry_congr e (clearSlot_key s)]
      exact hms
    refine entryFold_unique cu hmc he fun e' he' hm' => ?_
    rw [matchesEntry_congr e' (clearSlot_key s)] at hm'
    unfold matchesEntry at hm' hms
    rw [Bool.and_eq_true, beq_iff_eq, beq_iff_eq] at hm' hms
    have hkeys : entryKey e' = entryKey e := by
      unfold entryKey
      rw [← hm'.1, ← hm'.2, ← hms.1, ← hms.2]
    exact List.inj_on_of_nodup_map hNdSnap he' he hkeys
  constructor
  · rw [show applySnapshot cu g snap = g.map (snapStep cu snap (captureIds g)) from
      updateGrid_pointwise cu g snap hNd]
    rw [findSlot_map_snapStep, hs, Option.map_some']
    congr 1
    rw [snapStep_eval, hfold]
    split
    · exact restoreSel_markReserved_clear cu e s
    · rfl
  · refine ⟨?_, ?_, ?_, ?_⟩ <;>
      · unfold markReserved clearSlot
        by_cases h : (e.username == cu) = true <;> simp [h]

set_option maxRecDepth 10000 in
/-- Witness for C3 at the concrete inputs of the claim: the snapshot
entry Monday 9 alice yields class mine (reserved_by_self) under local
identity alice and class reserved (reserved_by_other) under local
identity bob, with the occupant label set. -/
theorem applySnapshot_entry_sets_reservation_witness :
    (findSlot (applySnapshot "alice" generateReservationGrid
        [⟨"Monday", 9, "alice"⟩]) .monday 9).map
          (fun s => (s.mine, s.reserved, s.selected, s.textContent)) =
        some (true, false, false, "alice") ∧
      (findSlot (applySnapshot "bob" generateReservationGrid
        [⟨"Monday", 9, "alice"⟩]) .monday 9).map
          (fun s => (s.mine, s.reserved, s.selected, s.textContent)) =
        some (false, true, false, "alice") := by
  constructor
  · rw [(applySnapshot_entry_sets_reservation "alice" generateReservationGrid
      [⟨"Monday", 9, "alice"⟩] ⟨"Monday", 9, "alice"⟩ .monday 9
      ⟨.monday, 9, none, false, false, false, ""⟩ (by decide) (by decide)
      (by decide) rfl rfl (by decide)).1]
    decide
  · rw [(applySnapshot_entry_sets_reservation "bob" generateReservationGrid
      [⟨"Monday", 9, "alice"⟩] ⟨"Monday", 9, "alice"⟩ .monday 9
      ⟨.monday, 9, none, false, false, false, ""⟩ (by decide) (by decide)
      (by decide) rfl rfl (by decide)).1]
    decide

/-! Pruning of the selection set by a snapshot. -/

theorem buildReservationIntent_eq_captureIds (g : List Slot) :
    buildReservationIntent g = captureIds g := rfl

theorem nodup_map_snapStep (cu : String) (snap : List ResEntry)
    (cap : List (Day × Nat)) {g : List Slot} (hNd : (g.map slotKey).Nodup) :
    ((g.map (snapStep cu snap cap)).map slotKey).Nodup := by
  rw [List.map_map,
    show slotKey ∘ snapStep cu snap cap = slotKey from
      funext fun s => snapStep_key cu snap cap s]
  exact hNd

theorem restoreSel_selected_of_false {s : Slot} (h : s.selected = false) :
    (restoreSel s).selected = true ↔ s.reserved = false ∧ s.mine = false := by
  unfold restoreSel
  by_cases hcl : (!s.reserved && !s.mine) = true
  · rw [if_pos hcl]
    rw [Bool.and_eq_true, Bool.not_eq_true', Bool.not_eq_true'] at hcl
    simp [hcl]
  · rw [if_neg hcl, h]
    rw [Bool.and_eq_true, Bool.not_eq_true', Bool.not_eq_true'] at hcl
    simp [hcl]

/-- C4: updateGridWithReservations prunes the selection to exactly the
previously selected cells the snapshot leaves free.  For the cell found
at (d, t) afterwards: it carries the class selected exactly when the cell
at (d, t) was selected before the call and the cell ends free of both
reservation classes; and (d, t) occurs in the reservation intent payload
exactly when that cell ends selected. -/
theorem applySnapshot_prunes_selection (cu : String) (g : List Slot)
    (snap : List ResEntry) (d : Day) (t : Nat) (s' : Slot)
    (hNd : (g.map slotKey).Nodup)
    (hfind : findSlot (applySnapshot cu g snap) d t = some s') :
    (s'.selected = true ↔
        ((∃ s, findSlot g d t = some s ∧ s.selected = true) ∧
          s'.reserved = false ∧ s'.mine = false)) ∧
      (((d, t) ∈ buildReservationIntent (applySnapshot cu g snap)) ↔
        s'.selected = true) := by
  have hmain : applySnapshot cu g snap = g.map (snapStep cu snap (captureIds g)) :=
    updateGrid_pointwise cu g snap hNd
  rw [hmain] at hfind
  rw [hmain]
  rw [findSlot_map_snapStep] at hfind
  cases hfs : findSlot g d t with
  | none => rw [hfs] at hfind; cases hfind
  | some s₀ =>
    rw [hfs, Option.map_some'] at hfind
    have hFs : snapStep cu snap (captureIds g) s₀ = s' := Option.some.inj hfind
    have hmem₀ : s₀ ∈ g := List.mem_of_find?_eq_some hfs
    have hkey₀ : slotKey s₀ = (d, t) := by
      have := List.find?_some hfs
      rw [Bool.and_eq_true, beq_iff_eq, beq_iff_eq] at this
      unfold slotKey
      rw [this.1, this.2]
    have hcap : ((s₀.day, s₀.timeIndex) ∈ captureIds g) ↔ s₀.selected = true :=
      mem_captureIds_of_nodup hNd hmem₀
    have hsel0 : (∃ s, some s₀ = some s ∧ s.selected = true) ↔ s₀.selected = true := by
      constructor
      · rintro ⟨s, hs1, hs2⟩
        rwa [← Option.some.inj hs1] at hs2
      · intro h
        exact ⟨s₀, rfl, h⟩
    have hs2sel : (entryFold cu snap (clearSlot s₀)).selected = false :=
      snapStep_selected_false cu snap s₀
    constructor
    · rw [hsel0, ← hFs, snapStep_eval]
      by_cases hc : (s₀.day, s₀.timeIndex) ∈ captureIds g
      · rw [if_pos hc]
        rw [restoreSel_reserved, restoreSel_mine,
          restoreSel_selected_of_false hs2sel]
        simp [hcap.mp hc]
      · rw [if_neg hc]
        rw [hs2sel]
        have : ¬s₀.selected = true := fun h => hc (hcap.mpr h)
        simp [this]
    · rw [buildReservationIntent_eq_captureIds]
      have hmemF : snapStep cu snap (captureIds g) s₀ ∈
          g.map (snapStep cu snap (captureIds g)) := List.mem_map_of_mem _ hmem₀
      have hkeyF : slotKey (snapStep cu snap (captureIds g) s₀) = (d, t) := by
        rw [snapStep_key]
        exact hkey₀
      have := mem_captureIds_of_nodup
        (nodup_map_snapStep cu snap (captureIds g) hNd) hmemF
      rw [hkeyF, hFs] at this
      exact this

set_option maxRecDepth 10000 in
/-- Witness for C4 at the concrete scenario of the claim: select Tuesday
14, then a snapshot reserves Tuesday 14 for another user; the cell ends
reserved and Tuesday 14 is absent from the reservation intent. -/
theorem applySnapshot_prunes_selection_witness :
    ((Day.tuesday, 14) ∉ buildReservationIntent
        (applySnapshot "alice" (toggleSlot generateReservationGrid .tuesday 14)
          [⟨"Tuesday", 14, "bob"⟩])) ∧
      findSlot (applySnapshot "alice" (toggleSlot generateReservationGrid .tuesday 14)
          [⟨"Tuesday", 14, "bob"⟩]) .tuesday 14 =
        some ⟨.tuesday, 14, none, false, true, false, "bob"⟩ := by
  have h := applySnapshot_prunes_selection "alice"
    (toggleSlot generateReservationGrid .tuesday 14) [⟨"Tuesday", 14, "bob"⟩]
    .tuesday 14 ⟨.tuesday, 14, none, false, true, false, "bob"⟩
    (by decide) (by decide)
  exact ⟨fun hm => absurd (h.2.mp hm) (by decide), by decide⟩

/-! Snapshot records that match no cell. -/

theorem map_slotKey_foldl_applyEntry (cu : String) :
    ∀ (es : List ResEntry) (g : List Slot),
      (es.foldl (applyEntry cu) g).map slotKey = g.map slotKey := by
  intro es
  induction es with
  | nil => intro g; rfl
  | cons e es ih =>
    intro g
    rw [List.foldl_cons, ih]
    exact map_K_updateFirst slotKey (markReserved_key cu e) g

/-- C9: a snapshot record whose (reservation_day, time_index) pair
matches no cell of the grid is silently skipped by the if (slot) null
check: removing it from the snapshot, wherever it stood, leaves the
result of updateGridWithReservations unchanged, so the remaining records
are applied exactly as without it. -/
theorem applySnapshot_ignores_unmatched (cu : String) (g : List Slot)
    (pre post : List ResEntry) (e : ResEntry)
    (h : ∀ s ∈ g, matchesEntry e s = false) :
    applySnapshot cu g (pre ++ e :: post) = applySnapshot cu g (pre ++ post) := by
  show (captureIds g).foldl restoreOne
      ((pre ++ e :: post).foldl (applyEntry cu) (g.map clearSlot)) =
    (captureIds g).foldl restoreOne
      ((pre ++ post).foldl (applyEntry cu) (g.map clearSlot))
  congr 1
  rw [List.foldl_append, List.foldl_append, List.foldl_cons]
  congr 1
  refine updateFirst_all_false fun s hs => ?_
  have hkeys : (pre.foldl (applyEntry cu) (g.map clearSlot)).map slotKey
      = g.map slotKey := by
    rw [map_slotKey_foldl_applyEntry, List.map_map,
      show slotKey ∘ clearSlot = slotKey from funext fun s => clearSlot_key s]
  have hmem : slotKey s ∈ g.map slotKey := by
    rw [← hkeys]
    exact List.mem_map_of_mem slotKey hs
  rcases List.mem_map.mp hmem with ⟨s₀, hs₀, hk⟩
  rw [matchesEntry_congr e hk.symm]
  exact h s₀ hs₀

set_option maxRecDepth 10000 in
/-- Witness for C9 at a concrete input: a record for a day name and hour
that exist nowhere in the grid changes nothing, the Monday 9 record is
still applied. -/
theorem applySnapshot_ignores_unmatched_witness :
    applySnapshot "alice" generateReservationGrid
        ([] ++ ⟨"Funday", 30, "x"⟩ :: [⟨"Monday", 9, "bob"⟩]) =
      applySnapshot "alice" generateReservationGrid ([] ++ [⟨"Monday", 9, "bob"⟩]) :=
  applySnapshot_ignores_unmatched "alice" generateReservationGrid []
    [⟨"Monday", 9, "bob"⟩] ⟨"Funday", 30, "x"⟩ (by decide)

/-! The grouped toggle: what flag the handler actually reads. -/

/-- A reachable grid in which the cells of the Monday group are selected
unevenly: select the Monday group, let a snapshot reserve Monday 1 for
another user, then let an empty snapshot free it again.  Monday 0 and
Monday 2 .. 5 come back selected, Monday 1 comes back free and
unselected. -/
def mixedMondayGrid : List Slot :=
  applySnapshot "alice"
    (applySnapshot "alice" (toggleSlot generateReservationGrid .monday 0)
      [⟨"Monday", 1, "bob"⟩]) []

set_option maxRecDepth 10000 in
/-- C1 counterexample: in mixedMondayGrid the clicked cell Monday 1 is
free, unselected and grouped while its group mate Monday 0 is selected,
so a member of the group is currently selected; the claim then demands
that the click deselect every member, but after the click Monday 0 is
still selected, because the handler reads the clicked cell only. -/
theorem toggleSlot_aggregate_flag_counterexample :
    (findSlot mixedMondayGrid .monday 1).map
        (fun s => (s.selected, s.reserved, s.mine, s.group)) =
      some (false, false, false, some "Monday-group") ∧
    (findSlot mixedMondayGrid .monday 0).map
        (fun s => (s.selected, s.group)) =
      some (true, some "Monday-group") ∧
    (findSlot (toggleSlot mixedMondayGrid .monday 1) .monday 0).map
        (fun s => s.selected) = some true := by
  refine ⟨by decide, by decide, by decide⟩

/-- C1 (amended): a click on a free grouped cell (d, t) reads the
selected flag of the clicked cell itself, not an aggregate over the
group: every group member free of reservation classes gets selected set
to the negation of that flag (so all are selected when the
clicked cell was unselected and all deselected when it was selected),
reserved or mine members are skipped unchanged and do not block the
rest, and cells outside the group are untouched. -/
theorem toggleSlot_group_clicked_flag (g : List Slot) (d : Day) (t : Nat)
    (s : Slot) (gk : String) (hs : findSlot g d t = some s)
    (hres : s.reserved = false) (hmine : s.mine = false)
    (hgk : s.group = some gk) :
    List.Forall₂ (fun m m' =>
        (m.group = some gk → m.reserved = false → m.mine = false →
          m' = { m with selected := !s.selected }) ∧
        (m.group ≠ some gk → m' = m) ∧
        (m.reserved = true ∨ m.mine = true → m' = m))
      g (toggleSlot g d t) := by
  have hgrid : toggleSlot g d t = g.map fun gs =>
      if gs.group == some gk then
        if gs.reserved || gs.mine then gs
        else if s.selected then { gs with selected := false }
        else { gs with selected := true }
      else gs := by
    simp only [toggleSlot, hs]
    rw [if_neg (by rw [hres, hmine]; exact Bool.false_ne_true)]
    simp only [hgk]
  rw [hgrid, List.forall₂_map_right_iff, List.forall₂_same]
  intro m _
  refine ⟨?_, ?_, ?_⟩
  · intro hgrp hr hm2
    rw [if_pos (by rw [hgrp]; exact beq_self_eq_true (some gk))]
    rw [if_neg (by rw [hr, hm2]; exact Bool.false_ne_true)]
    cases hsel : s.selected with
    | true => rfl
    | false => rfl
  · intro hgrp
    rw [if_neg (by simp [hgrp])]
  · intro hrm
    by_cases hgrp : (m.group == some gk) = true
    · rw [if_pos hgrp]
      rw [if_pos (by rcases hrm with h | h <;> simp [h])]
    · rw [if_neg hgrp]

/-- Witness for C1 (amended) at a concrete input: the fresh grid clicked
on Monday 0. -/
theorem toggleSlot_group_clicked_flag_witness :
    List.Forall₂ (fun m m' =>
        (m.group = some "Monday-group" → m.reserved = false → m.mine = false →
          m' = { m with selected :=
            !(⟨.monday, 0, some "Monday-group", false, false, false, ""⟩ : Slot).selected }) ∧
        (m.group ≠ some "Monday-group" → m' = m) ∧
        (m.reserved = true ∨ m.mine = true → m' = m))
      generateReservationGrid (toggleSlot generateReservationGrid .monday 0) :=
  toggleSlot_group_clicked_flag generateReservationGrid .monday 0
    ⟨.monday, 0, some "Monday-group", false, false, false, ""⟩ "Monday-group"
    (by decide) rfl rfl rfl

/-! Order of the reservation intent payload. -/

/-- Modelled from the specification words for comparison with the source:
the ordering the specification asserts for buildReservationIntent, namely
time ascending within each day with the days in canonical week order
(all Monday entries first, then all Tuesday entries, and so on). -/
def buildReservationIntentSpecOrder (g : List Slot) : List (Day × Nat) :=
  weekDays.flatMap fun d =>
    (g.filter fun s => s.selected && s.day == d).map fun s => (s.day, s.timeIndex)

theorem buildReservationIntent_map_slotKey (g : List Slot) :
    buildReservationIntent g = (g.filter fun s => s.selected).map slotKey := rfl

set_option maxRecDepth 10000 in
/-- C8 counterexample: with the Monday and the Tuesday overnight groups
selected, the payload interleaves the two days hour by hour (document
order is row major, time outermost), while the order the claim asserts
would list all six Monday hours before any Tuesday hour. -/
theorem buildReservationIntent_order_counterexample :
    buildReservationIntent
        (toggleSlot (toggleSlot generateReservationGrid .monday 0) .tuesday 0) =
      [(.monday, 0), (.tuesday, 0), (.monday, 1), (.tuesday, 1), (.monday, 2),
        (.tuesday, 2), (.monday, 3), (.tuesday, 3), (.monday, 4), (.tuesday, 4),
        (.monday, 5), (.tuesday, 5)] ∧
    buildReservationIntentSpecOrder
        (toggleSlot (toggleSlot generateReservationGrid .monday 0) .tuesday 0) =
      [(.monday, 0), (.monday, 1), (.monday, 2), (.monday, 3), (.monday, 4),
        (.monday, 5), (.tuesday, 0), (.tuesday, 1), (.tuesday, 2), (.tuesday, 3),
        (.tuesday, 4), (.tuesday, 5)] ∧
    buildReservationIntent
        (toggleSlot (toggleSlot generateReservationGrid .monday 0) .tuesday 0) ≠
      buildReservationIntentSpecOrder
        (toggleSlot (toggleSlot generateReservationGrid .monday 0) .tuesday 0) := by
  refine ⟨by decide, by decide, by decide⟩

set_option maxRecDepth 10000 in
theorem initial_keys_sorted :
    (generateReservationGrid.map slotKey).Pairwise
      (fun a b => keyLT a b = true) := by decide

/-- C8 (amended): on any grid with the construction-time identifiers in
construction order, buildReservationIntent lists exactly the (day, hour)
pairs of the selected cells, in grid traversal (document) order: time
ascending, and within one time the days in canonical week order; on the
untouched grid it is empty. -/
theorem buildReservationIntent_exact_and_sorted (g : List Slot)
    (hk : g.map slotKey = generateReservationGrid.map slotKey) :
    (buildReservationIntent g).Pairwise (fun a b => keyLT a b = true) ∧
      (∀ (d : Day) (t : Nat), ((d, t) ∈ buildReservationIntent g) ↔
        ∃ s ∈ g, s.day = d ∧ s.timeIndex = t ∧ s.selected = true) ∧
      buildReservationIntent generateReservationGrid = [] := by
  refine ⟨?_, ?_, by decide⟩
  · have hsub : (buildReservationIntent g).Sublist (g.map slotKey) := by
      rw [buildReservationIntent_map_slotKey]
      exact (List.filter_sublist g).map slotKey
    rw [hk] at hsub
    exact initial_keys_sorted.sublist hsub
  · intro d t
    rw [buildReservationIntent_map_slotKey]
    constructor
    · intro hmem
      rcases List.mem_map.mp hmem with ⟨s, hsf, hks⟩
      rcases List.mem_filter.mp hsf with ⟨hsg, hsel⟩
      unfold slotKey at hks
      rw [Prod.mk.injEq] at hks
      exact ⟨s, hsg, hks.1, hks.2, hsel⟩
    · rintro ⟨s, hsg, hd, ht, hsel⟩
      refine List.mem_map.mpr ⟨s, List.mem_filter.mpr ⟨hsg, hsel⟩, ?_⟩
      unfold slotKey
      rw [hd, ht]

set_option maxRecDepth 10000 in
/-- Witness for C8 (amended) at a concrete input: the untouched grid and
one selection. -/
theorem buildReservationIntent_exact_and_sorted_witness :
    buildReservationIntent generateReservationGrid = [] ∧
      ((Day.monday, 10) ∈ buildReservationIntent
        (toggleSlot generateReservationGrid .monday 10)) :=
  ⟨(buildReservationIntent_exact_and_sorted generateReservationGrid rfl).2.2,
    ((buildReservationIntent_exact_and_sorted
        (toggleSlot generateReservationGrid .monday 10) (by decide)).2.1
      .monday 10).mpr
      ⟨⟨.monday, 10, none, true, false, false, ""⟩, by decide, rfl, rfl, rfl⟩⟩

/-! Frame: no operation ever changes a construction-time attribute. -/

theorem map_skel_foldl_applyEntry (cu : String) :
    ∀ (es : List ResEntry) (g : List Slot),
      (es.foldl (applyEntry cu) g).map skel = g.map skel := by
  intro es
  induction es with
  | nil => intro g; rfl
  | cons e es ih =>
    intro g
    rw [List.foldl_cons, ih]
    exact map_K_updateFirst skel (markReserved_skel cu e) g

theorem map_skel_foldl_restoreOne :
    ∀ (ids : List (Day × Nat)) (g : List Slot),
      (ids.foldl restoreOne g).map skel = g.map skel := by
  intro ids
  induction ids with
  | nil => intro g; rfl
  | cons k ks ih =>
    intro g
    rw [List.foldl_cons, ih]
    exact map_K_updateFirst skel restoreSel_skel g

theorem map_skel_updateGrid (cu : String) (g : List Slot)
    (snap : List ResEntry) :
    (updateGridWithReservations cu g snap).map skel = g.map skel := by
  show ((captureIds g).foldl restoreOne
      (snap.foldl (applyEntry cu) (g.map clearSlot))).map skel = g.map skel
  rw [map_skel_foldl_restoreOne, map_skel_foldl_applyEntry, List.map_map,
    show skel ∘ clearSlot = skel from funext fun s => clearSlot_skel s]

theorem map_skel_toggleSlot (g : List Slot) (d : Day) (t : Nat) :
    (toggleSlot g d t).map skel = g.map skel := by
  unfold toggleSlot
  cases hfind : findSlot g d t with
  | none => rfl
  | some s =>
    dsimp only
    by_cases hb : (s.reserved || s.mine) = true
    · rw [if_pos hb]
    · rw [if_neg hb]
      cases hgrp : s.group with
      | some gk =>
        rw [List.map_map]
        refine List.map_congr_left fun gs _ => ?_
        show skel (if (gs.group == some gk) = true then
            if (gs.reserved || gs.mine) = true then gs
            else if s.selected = true then { gs with selected := false }
            else { gs with selected := true }
          else gs) = skel gs
        by_cases h1 : (gs.group == some gk) = true
        · rw [if_pos h1]
          by_cases h2 : (gs.reserved || gs.mine) = true
          · rw [if_pos h2]
          · rw [if_neg h2]
            by_cases h3 : s.selected = true
            · rw [if_pos h3]; rfl
            · rw [if_neg h3]; rfl
        · rw [if_neg h1]
      | none =>
        rw [List.map_map]
        refine List.map_congr_left fun gs _ => ?_
        show skel (if (gs.day == d && gs.timeIndex == t) = true then
            { gs with selected := !gs.selected } else gs) = skel gs
        by_cases h1 : (gs.day == d && gs.timeIndex == t) = true
        · rw [if_pos h1]; rfl
        · rw [if_neg h1]

set_option maxRecDepth 10000 in
/-- C10: every session, whatever clicks and snapshot pushes it contains
and in whatever order, leaves the data-day, data-time-index and
data-group attributes of every cell exactly as the grid construction assigned them
(only the state classes and the text content ever change, the record has
no other field); and on the constructed grid the data-group attribute is
present exactly for hours 0 to 5, derived from the day. -/
theorem operations_preserve_slot_identity :
    (∀ (g : List Slot) (ops : List Op), (runOps g ops).map skel = g.map skel) ∧
      ∀ s ∈ generateReservationGrid,
        s.group = if s.timeIndex ≤ 5 then some (dayName s.day ++ "-group") else none := by
  constructor
  · intro g ops
    induction ops generalizing g with
    | nil => rfl
    | cons op ops ih =>
      show (runOps (applyOp g op) ops).map skel = g.map skel
      rw [ih (applyOp g op)]
      cases op with
      | click d t => exact map_skel_toggleSlot g d t
      | push cu snap => exact map_skel_updateGrid cu g snap
  · decide

/-- Witness for C10 at a concrete input: a short session of one click and
one push, and one concrete cell of the constructed grid. -/
theorem operations_preserve_slot_identity_witness :
    (runOps generateReservationGrid
        [Op.click .monday 0, Op.push "alice" [⟨"Monday", 9, "bob"⟩]]).map skel =
      generateReservationGrid.map skel :=
  operations_preserve_slot_identity.1 generateReservationGrid
    [Op.click .monday 0, Op.push "alice" [⟨"Monday", 9, "bob"⟩]]

end MugeunjiScheduler
